import Mathlib

/-!
Shallow embedding of the yt-w live-stream monitor core
(src/src/yt_monitor/...), used to check the natural-language
specification against the code.

Conventions of the embedding:
* Python strings are Lean `String`s, except for URL sanitization
  (src/src/yt_monitor/util/sanitize_url.py), which is modelled at the
  level of the UTF-8 byte sequence (`List Nat`, each element < 256),
  because `urllib`'s quoting works on bytes.
* A Python function that may raise is modelled with `Except String`
  (the `String` standing for the exception message) or, where the
  surrounding code only observes raised-vs-returned, with an explicit
  outcome datatype.
* The on-disk channels file is modelled by its parsed contents
  (`StoreData`); a store method returns the contents the file holds
  after the call, together with its Python return value.
* External effects (yt-dlp extraction, ffmpeg exit codes, the
  downloader outcome seen by a monitor) are inputs to the embedded
  functions, one value per call site, supplied by an environment
  record.
-/

/-- `LiveStreamInfo` from youtube_client.py.  `__post_init__` rewrites a
non-http `url` to the canonical watch URL. -/
structure LiveStreamInfo where
  video_id : String
  url : String
  title : Option String
deriving DecidableEq, Repr

/-- `LiveStreamInfo.__post_init__`: if the given url does not start with
"http" it is replaced by `https://www.youtube.com/watch?v=<video_id>`. -/
def mkLiveStreamInfo (video_id url : String) (title : Option String) : LiveStreamInfo :=
  if url.startsWith "http" then ⟨video_id, url, title⟩
  else ⟨video_id, "https://www.youtube.com/watch?v=" ++ video_id, title⟩

/-- Outcome of one detection strategy call in
`YouTubeClient.check_if_live`: the method either returns a value
(`some info`, which is truthy, or `none`, falsy) or raises. -/
inductive StratResult where
  | ok : Option LiveStreamInfo → StratResult
  | exn : String → StratResult
deriving DecidableEq, Repr

/-- The `for method in detection_methods` loop body of
`YouTubeClient.check_if_live` (youtube_client.py lines 60-68): take the
first strategy whose call returns a truthy result; a raised exception is
logged and the next strategy is tried; if the list is exhausted return
`(False, None)`. -/
def runStrategies : List StratResult → Bool × Option LiveStreamInfo
  | [] => (false, none)
  | StratResult.ok (some info) :: _ => (true, some info)
  | StratResult.ok none :: rest => runStrategies rest
  | StratResult.exn _ :: rest => runStrategies rest

/-- `YouTubeClient.check_if_live`: the three detection strategies are
passed as functions of the channel url, called in the fixed order
`_check_live_endpoint`, `_check_streams_tab`, `_check_channel_page`. -/
def check_if_live (m1 m2 m3 : String → StratResult) (channel_url : String) :
    Bool × Option LiveStreamInfo :=
  runStrategies [m1 channel_url, m2 channel_url, m3 channel_url]

/-- A strategy outcome that does not produce a live stream: the method
returned `None` or raised. -/
def negStrat : StratResult → Prop
  | StratResult.ok none => True
  | StratResult.ok (some _) => False
  | StratResult.exn _ => True

instance (r : StratResult) : Decidable (negStrat r) := by
  cases r with
  | ok o => cases o with
    | none => exact isTrue trivial
    | some _ => exact isFalse id
  | exn _ => exact isTrue trivial

/-- Outcome of `self.downloader.download(...)` as observed by
`_handle_live_stream`: returned `True`, returned `False`, or raised. -/
inductive DownloadOutcome where
  | success
  | failure
  | exn : String → DownloadOutcome
deriving DecidableEq, Repr

/-- The per-channel monitor state touched by `_handle_live_stream`
(multi_channel_monitor.py `ChannelMonitorThread`, and the identical
monitor.py `LiveStreamMonitor`): the `is_downloading` flag plus the log
messages emitted. -/
structure MonitorSt where
  is_downloading : Bool
  log : List String
deriving DecidableEq, Repr

/-- A `try ... finally ...` block: run the body (which returns the new
state and possibly a propagating exception), then always run the
`finally` clause on the state. -/
def pyTryFinally (body : MonitorSt → MonitorSt × Option String)
    (fin : MonitorSt → MonitorSt) (s : MonitorSt) : MonitorSt × Option String :=
  let r := body s
  (fin r.1, r.2)

/-- Body of the `try` in `_handle_live_stream`
(multi_channel_monitor.py lines 126-139): call the downloader; on
`True` log a finished message, on `False` log a failed message; a
raised exception propagates. -/
def handleLiveStreamBody (outcome : DownloadOutcome) (s : MonitorSt) :
    MonitorSt × Option String :=
  match outcome with
  | DownloadOutcome.success => ({ s with log := s.log ++ ["Download finished"] }, none)
  | DownloadOutcome.failure => ({ s with log := s.log ++ ["Download failed"] }, none)
  | DownloadOutcome.exn e => (s, some e)

/-- `_handle_live_stream` (multi_channel_monitor.py lines 113-142 and
monitor.py lines 81-103): set `is_downloading = True`, then run the
download inside `try ... finally self.is_downloading = False`. -/
def handle_live_stream (outcome : DownloadOutcome) (s : MonitorSt) :
    MonitorSt × Option String :=
  pyTryFinally (handleLiveStreamBody outcome)
    (fun s1 => { s1 with is_downloading := false })
    { s with is_downloading := true }

/-- The fixed assumed bitrate of downloader.py
`_download_with_realtime_split` (line 133). -/
def estimated_bitrate_mbps : Nat := 5

/-- Segment-length computation at the head of
`_download_with_realtime_split` (downloader.py lines 129-136,
stream_downloader.py lines 82-89): `split_mode == "time"` gives
`split_time_minutes * 60`; `split_mode == "size"` gives
`int(split_size_mb * 8 / estimated_bitrate_mbps)` (truncating division
of non-negative integers, i.e. floor); any other mode raises
`ValueError`. -/
def computeSplitSeconds (split_mode : String) (split_time_minutes split_size_mb : Nat) :
    Except String Nat :=
  if split_mode = "time" then Except.ok (split_time_minutes * 60)
  else if split_mode = "size" then
    Except.ok (split_size_mb * 8 / estimated_bitrate_mbps)
  else Except.error ("Invalid split_mode: " ++ split_mode)

/-- Configuration fields of `StreamDownloader.__init__` (downloader.py
lines 16-28). -/
structure StreamDownloaderCfg where
  download_directory : String
  download_format : String
  split_mode : String
  split_time_minutes : Nat
  split_size_mb : Nat
deriving DecidableEq, Repr

/-- The `info` dict returned by `ydl.extract_info` as inspected by
`_download_with_realtime_split` (downloader.py lines 150-156). -/
structure ExtractInfo where
  manifest_url : Option String
  url : Option String
deriving DecidableEq, Repr

/-- External effects of one `StreamDownloader.download` call: the
outcome of `ydl.extract_info` (which may raise), the ffmpeg exit code
of the segmented run, and the outcome of the unsegmented
`_perform_download` path. -/
structure DownloadEnv where
  extract_result : Except String ExtractInfo
  ffmpeg_returncode : Int
  perform_result : Except String Unit
deriving Repr

/-- `_download_with_realtime_split` (downloader.py lines 127-180):
compute the segment length (raising on an invalid mode), resolve the
stream input via `extract_info` (which may raise), run ffmpeg, and
raise if the ffmpeg return code is non-zero. -/
def download_with_realtime_split (cfg : StreamDownloaderCfg) (env : DownloadEnv)
    (stream_url : String) : Except String String :=
  match computeSplitSeconds cfg.split_mode cfg.split_time_minutes cfg.split_size_mb with
  | Except.error e => Except.error e
  | Except.ok _split_seconds =>
    match env.extract_result with
    | Except.error e => Except.error e
    | Except.ok info =>
      let stream_input :=
        match info.manifest_url with
        | some m => m
        | none => match info.url with
          | some u => u
          | none => stream_url
      if env.ffmpeg_returncode ≠ 0 then
        Except.error "FFmpeg download failed with return code"
      else Except.ok stream_input

/-- The body of the `try` in `StreamDownloader.download` (downloader.py
lines 36-55): in mode "none" run the plain yt-dlp download, otherwise
run the realtime-split path; return `True` on completion, let any
exception propagate. -/
def downloadBody (cfg : StreamDownloaderCfg) (env : DownloadEnv) (stream_url : String) :
    Except String Bool :=
  if cfg.split_mode = "none" then
    match env.perform_result with
    | Except.error e => Except.error e
    | Except.ok _ => Except.ok true
  else
    match download_with_realtime_split cfg env stream_url with
    | Except.error e => Except.error e
    | Except.ok _ => Except.ok true

/-- `StreamDownloader.download` (downloader.py lines 35-59): the whole
body runs inside `try ... except Exception: return False`, so the
method always returns a boolean and never raises. -/
def StreamDownloader.download (cfg : StreamDownloaderCfg) (env : DownloadEnv)
    (stream_url : String) : Bool :=
  match downloadBody cfg env stream_url with
  | Except.ok b => b
  | Except.error _ => false

/-- `GlobalSettingsDTO` (channel_manager.py lines 28-44). -/
structure GlobalSettingsDTO where
  check_interval_seconds : Int
  download_directory : String
  log_file : String
  split_mode : String
  split_time_minutes : Int
  split_size_mb : Int
deriving DecidableEq, Repr

/-- `GlobalSettingsDTO.__post_init__` (channel_manager.py lines 39-44):
construction raises `ValueError` when `check_interval_seconds < 1` or
when `split_mode` is not one of "time", "size", "none"; no other field
is validated. -/
def mkGlobalSettingsDTO (check_interval_seconds : Int)
    (download_directory log_file : String) (split_mode : String)
    (split_time_minutes split_size_mb : Int) : Except String GlobalSettingsDTO :=
  if check_interval_seconds < 1 then
    Except.error "check_interval_seconds must be at least 1"
  else if ¬ (split_mode = "time" ∨ split_mode = "size" ∨ split_mode = "none") then
    Except.error "split_mode must be time, size, or none"
  else
    Except.ok ⟨check_interval_seconds, download_directory, log_file, split_mode,
      split_time_minutes, split_size_mb⟩

/-- `ChannelDTO` (channel_manager.py lines 10-25), without the
`__post_init__` validation (the stored JSON records are plain dicts). -/
structure ChannelDTO where
  id : String
  name : String
  url : String
  enabled : Bool
  download_format : String
deriving DecidableEq, Repr

/-- `ChannelDTO.__post_init__` (channel_manager.py lines 20-25):
constructing a DTO raises `ValueError` on an empty url or name. -/
def mkChannelDTO (id name url : String) (enabled : Bool) (download_format : String) :
    Except String ChannelDTO :=
  if url = "" then Except.error "Channel URL cannot be empty"
  else if name = "" then Except.error "Channel name cannot be empty"
  else Except.ok ⟨id, name, url, enabled, download_format⟩

/-- Parsed contents of the channels.json file: the `"channels"` list
and the `"global_settings"` record. -/
structure StoreData where
  channels : List ChannelDTO
  global_settings : GlobalSettingsDTO
deriving DecidableEq, Repr

/-- `ChannelManager.add_channel` (channel_manager.py lines 89-130).
`file` is what `_read_data` returns; `new_id` stands for the fresh
`uuid4`.  The result is the file contents after the call paired with
the Python outcome: `ok` the created DTO (the file was rewritten with
it appended), or `error` when a channel with the same raw `url` string
already exists, or when DTO validation fails — in both error cases the
exception is raised before `_write_data`, so the file is unchanged. -/
def ChannelManager.add_channel (file : StoreData) (name url : String)
    (enabled : Bool) (download_format : String) (new_id : String) :
    StoreData × Except String ChannelDTO :=
  if file.channels.any (fun ch => ch.url = url) then
    (file, Except.error ("Channel with URL " ++ url ++ " already exists"))
  else
    match mkChannelDTO new_id name url enabled download_format with
    | Except.error e => (file, Except.error e)
    | Except.ok ch => ({ file with channels := file.channels ++ [ch] }, Except.ok ch)

/-- Field update applied by `ChannelManager.update_channel` to the
matching stored record (channel_manager.py lines 216-223): each
argument that is not `None` overwrites the stored field. -/
def applyChannelUpdate (ch : ChannelDTO) (name url : Option String)
    (enabled : Option Bool) (download_format : Option String) : ChannelDTO :=
  { ch with
    name := name.getD ch.name
    url := url.getD ch.url
    enabled := enabled.getD ch.enabled
    download_format := download_format.getD ch.download_format }

/-- The `for i, channel_data in enumerate(...)` scan of
`update_channel`: update the first record whose `id` matches, returning
the new list and the updated record, or `none` when no record matches. -/
def updateChannels (channels : List ChannelDTO) (channel_id : String)
    (name url : Option String) (enabled : Option Bool) (download_format : Option String) :
    Option (List ChannelDTO × ChannelDTO) :=
  match channels with
  | [] => none
  | ch :: rest =>
    if ch.id = channel_id then
      let ch2 := applyChannelUpdate ch name url enabled download_format
      some (ch2 :: rest, ch2)
    else
      match updateChannels rest channel_id name url enabled download_format with
      | none => none
      | some (rest2, ch2) => some (ch :: rest2, ch2)

/-- `ChannelManager.update_channel` (channel_manager.py lines 191-230):
find the record with the given id, overwrite the provided fields,
rewrite the file, and return `ChannelDTO(**channel_data)` (whose
validation runs after the write); `none` when the id is not found (no
write).  No duplicate-url check is performed. -/
def ChannelManager.update_channel (file : StoreData) (channel_id : String)
    (name url : Option String) (enabled : Option Bool) (download_format : Option String) :
    StoreData × Except String (Option ChannelDTO) :=
  match updateChannels file.channels channel_id name url enabled download_format with
  | none => (file, Except.ok none)
  | some (channels2, ch2) =>
    ({ file with channels := channels2 },
     (mkChannelDTO ch2.id ch2.name ch2.url ch2.enabled ch2.download_format).map some)

/-- `ChannelManager.remove_channel` (channel_manager.py lines 132-153):
filter out records with the given id; if the list shrank, rewrite the
file and return `True`; otherwise return `False` without writing.  The
middle component records whether `_write_data` was called. -/
def ChannelManager.remove_channel (file : StoreData) (channel_id : String) :
    StoreData × Bool × Bool :=
  let remaining := file.channels.filter (fun ch => ch.id ≠ channel_id)
  if remaining.length < file.channels.length then
    ({ file with channels := remaining }, true, true)
  else
    (file, false, false)

/-- The state of one `ChannelMonitorThread` object as far as the
supervisor observes it: its flags and its channel. -/
structure MonitorHandle where
  channel : ChannelDTO
  is_running : Bool
  is_downloading : Bool
deriving DecidableEq, Repr

/-- `ChannelMonitorThread.stop` (multi_channel_monitor.py lines 78-83):
clear the running flag (the bounded join does not change observable
state). -/
def stopHandle (h : MonitorHandle) : MonitorHandle :=
  { h with is_running := false }

/-- Constructing and starting a `ChannelMonitorThread` for a channel
(multi_channel_monitor.py lines 17-49 and 68-76). -/
def startedHandle (ch : ChannelDTO) : MonitorHandle :=
  { channel := ch, is_running := true, is_downloading := false }

/-- The `monitor_threads` dict of `MultiChannelMonitor`, modelled as an
association list keyed by channel id (insertion order; keys unique in
any reachable state). -/
abbrev Registry : Type := List (String × MonitorHandle)

/-- Dict membership/lookup for the registry. -/
def regLookup (reg : Registry) (channel_id : String) : Option MonitorHandle :=
  match reg with
  | [] => none
  | (k, h) :: rest => if k = channel_id then some h else regLookup rest channel_id

/-- Dict deletion for the registry (`del self.monitor_threads[id]`). -/
def regErase (reg : Registry) (channel_id : String) : Registry :=
  match reg with
  | [] => []
  | (k, h) :: rest =>
    if k = channel_id then rest else (k, h) :: regErase rest channel_id

/-- `MultiChannelMonitor` state observed by the supervisor operations:
the running flag and the registry of monitor threads. -/
structure MultiMonitorSt where
  is_running : Bool
  monitor_threads : Registry
deriving DecidableEq

/-- `MultiChannelMonitor.remove_channel_and_stop_monitoring`
(multi_channel_monitor.py lines 242-251): if the id is registered, call
`stop()` on that thread and delete its entry; otherwise do nothing.
The second component is the final state of the stopped thread object
(`none` when no thread was touched). -/
def remove_channel_and_stop_monitoring (m : MultiMonitorSt) (channel_id : String) :
    MultiMonitorSt × Option MonitorHandle :=
  match regLookup m.monitor_threads channel_id with
  | none => (m, none)
  | some h =>
    ({ m with monitor_threads := regErase m.monitor_threads channel_id },
     some (stopHandle h))

/-- `MultiChannelMonitor.add_channel_and_start_monitoring`
(multi_channel_monitor.py lines 216-240): return immediately when the
supervisor is not running; warn and return when the id is already
registered; otherwise construct, start and register a new monitor
thread. -/
def add_channel_and_start_monitoring (m : MultiMonitorSt) (ch : ChannelDTO) :
    MultiMonitorSt :=
  if ¬ m.is_running then m
  else if (regLookup m.monitor_threads ch.id).isSome then m
  else { m with monitor_threads := m.monitor_threads ++ [(ch.id, startedHandle ch)] }

/-!
### URL sanitization (src/src/yt_monitor/util/sanitize_url.py)

`sanitize_youtube_url` is built from `urllib.parse`: `urlparse`,
`parse_qs(..., keep_blank_values=True)`, deletion of the keys `list`,
`index`, `start_radio`, `rv`, `urlencode(..., doseq=True)` and
`urlunparse`.  `urllib`'s percent-quoting operates on UTF-8 bytes, so
the model works on the byte sequence of the URL (`List Nat`, each
element < 256).  The part of the URL before the first `?` (after the
fragment is removed) is carried through unchanged as an opaque prefix,
exactly as the code passes scheme, netloc, path and params through
`urlunparse` untouched (the model omits `urlsplit`'s lower-casing of
the scheme, which the sanitizer never observes).  An absent query or
fragment and an empty one are identified, matching `urlunparse`, which
emits `?`/`#` only for a non-empty component.
-/

/-- Byte values of the ASCII separators used by the model. -/
def hashByte : Nat := 35

def qmarkByte : Nat := 63

def ampByte : Nat := 38

def eqByte : Nat := 61

/-- Characters left unquoted by `urllib.parse.quote_plus` (letters,
digits, `_`, `.`, `-`, `~`); the space is handled separately. -/
def isSafeByte (b : Nat) : Bool :=
  decide ((48 ≤ b ∧ b ≤ 57) ∨ (65 ≤ b ∧ b ≤ 90) ∨ (97 ≤ b ∧ b ≤ 122) ∨
    b = 95 ∨ b = 46 ∨ b = 126 ∨ b = 45)

/-- Upper-case hexadecimal digit, as emitted by `urllib.parse.quote`. -/
def hexDigitUpper (n : Nat) : Nat :=
  if n < 10 then 48 + n else 55 + n

/-- Value of a hexadecimal digit byte (both cases), `none` for a
non-hex byte — `urllib.parse.unquote` leaves invalid escapes alone. -/
def hexVal (b : Nat) : Option Nat :=
  if 48 ≤ b ∧ b ≤ 57 then some (b - 48)
  else if 65 ≤ b ∧ b ≤ 70 then some (b - 55)
  else if 97 ≤ b ∧ b ≤ 102 then some (b - 87)
  else none

/-- `urllib.parse.quote_plus` on one byte: safe bytes pass through, a
space becomes `+`, everything else becomes `%XX`. -/
def quotePlusByte (b : Nat) : List Nat :=
  if isSafeByte b then [b]
  else if b = 32 then [43]
  else [37, hexDigitUpper (b / 16), hexDigitUpper (b % 16)]

/-- `urllib.parse.quote_plus` on a byte string. -/
def quotePlus (s : List Nat) : List Nat :=
  (s.map quotePlusByte).flatten

/-- `urllib.parse.unquote_plus` on a byte string: `+` becomes a space,
`%XX` with two hex digits becomes the byte `XX`, an invalid escape is
kept verbatim. -/
def unquotePlus : List Nat → List Nat
  | [] => []
  | 43 :: rest => 32 :: unquotePlus rest
  | 37 :: a :: c :: rest2 =>
    match hexVal a, hexVal c with
    | some ha, some hc => (16 * ha + hc) :: unquotePlus rest2
    | _, _ => 37 :: unquotePlus (a :: c :: rest2)
  | b :: rest => b :: unquotePlus rest

/-- Split at the first occurrence of `sep`: the prefix before it, and
the suffix after it (`none` when `sep` does not occur) — the semantics
of Python's `s.split(sep, 1)`. -/
def splitOnFirst (sep : Nat) : List Nat → List Nat × Option (List Nat)
  | [] => ([], none)
  | b :: rest =>
    if b = sep then ([], some rest)
    else
      let r := splitOnFirst sep rest
      (b :: r.1, r.2)

/-- Python's `s.split(sep)` (all occurrences; empty pieces kept). -/
def splitAllOn (sep : Nat) : List Nat → List (List Nat)
  | [] => [[]]
  | b :: rest =>
    if b = sep then [] :: splitAllOn sep rest
    else
      match splitAllOn sep rest with
      | [] => [[b]]
      | g :: gs => (b :: g) :: gs

/-- `urllib.parse.parse_qsl(qs, keep_blank_values=True)`: split the
query on `&`, skip empty fields, split each field at the first `=`
(a field without `=` keeps a blank value), and percent-decode name and
value. -/
def parseQsl (query : List Nat) : List (List Nat × List Nat) :=
  (splitAllOn ampByte query).filterMap fun field =>
    if field = [] then none
    else
      let r := splitOnFirst eqByte field
      match r.2 with
      | none => some (unquotePlus r.1, [])
      | some v => some (unquotePlus r.1, unquotePlus v)

/-- One step of building `parse_qs`'s dict: append the value to an
existing key's list, or add a new key at the end (dicts preserve
insertion order). -/
def insertPair (acc : List (List Nat × List (List Nat))) (k v : List Nat) :
    List (List Nat × List (List Nat)) :=
  match acc with
  | [] => [(k, [v])]
  | (k1, vs) :: rest =>
    if k1 = k then (k1, vs ++ [v]) :: rest
    else (k1, vs) :: insertPair rest k v

/-- Grouping of `parse_qsl` pairs into `parse_qs`'s ordered dict. -/
def groupPairs (ps : List (List Nat × List Nat)) : List (List Nat × List (List Nat)) :=
  ps.foldl (fun acc kv => insertPair acc kv.1 kv.2) []

/-- The query keys deleted by `sanitize_youtube_url` (sanitize_url.py
lines 23-29): `list`, then `index`, `start_radio`, `rv`. -/
def droppedKeys : List (List Nat) :=
  [[108, 105, 115, 116], [105, 110, 100, 101, 120],
   [115, 116, 97, 114, 116, 95, 114, 97, 100, 105, 111], [114, 118]]

/-- The ordered `(key, value)` pairs denoted by a grouped dict: one
pair per value, keys in dict order — the iteration order of
`urlencode(..., doseq=True)`. -/
def flattenPairs (g : List (List Nat × List (List Nat))) : List (List Nat × List Nat) :=
  (g.map fun kv => kv.2.map fun v => (kv.1, v)).flatten

/-- One `key=value` token of the encoded query, key and value
percent-quoted. -/
def encTok (kv : List Nat × List Nat) : List Nat :=
  quotePlus kv.1 ++ eqByte :: quotePlus kv.2

/-- `&`-joining of the encoded tokens (`urlencode`'s separator). -/
def joinAmpTokens : List (List Nat) → List Nat
  | [] => []
  | t :: ts => t ++ (ts.map fun u => ampByte :: u).flatten

/-- `urlencode(..., doseq=True)` applied to the flattened dict: for
each key in dict order, one `k=v` token per value, keys and values
percent-quoted, tokens joined with `&`. -/
def urlencodeGrouped (g : List (List Nat × List (List Nat))) : List Nat :=
  joinAmpTokens ((flattenPairs g).map encTok)

/-- `sanitize_youtube_url` (sanitize_url.py lines 3-45) on the URL's
byte sequence: split off the fragment (first `#`) and the query (first
`?` of the rest), parse and group the query, delete the playlist keys,
re-encode, and reassemble; `?`/`#` are emitted only before a non-empty
component. -/
def sanitize_youtube_url (url : List Nat) : List Nat :=
  let fr := splitOnFirst hashByte url
  let frag := fr.2.getD []
  let qr := splitOnFirst qmarkByte fr.1
  let base := qr.1
  let query := qr.2.getD []
  let cleaned := (groupPairs (parseQsl query)).filter
    (fun kv => decide (kv.1 ∉ droppedKeys))
  let newQuery := urlencodeGrouped cleaned
  base ++ (if newQuery = [] then [] else qmarkByte :: newQuery) ++
    (if frag = [] then [] else hashByte :: frag)

/-- UTF-8 byte sequence of an ASCII string literal, used to state
concrete URL examples. -/
def strBytes (s : String) : List Nat :=
  s.toList.map Char.toNat

/-- The normalized address of a stored channel: its url put through
`sanitize_youtube_url` (the web layer normalizes with this function
before storing, web_api.py lines 154 and 182). -/
def normalizedAddr (ch : ChannelDTO) : List Nat :=
  sanitize_youtube_url (strBytes ch.url)

/-- The spec's store invariant: no two stored Sources share the same
normalized address. -/
def NormalizedAddrsDistinct (channels : List ChannelDTO) : Prop :=
  channels.Pairwise (fun a b => normalizedAddr a ≠ normalizedAddr b)

instance (channels : List ChannelDTO) : Decidable (NormalizedAddrsDistinct channels) := by
  unfold NormalizedAddrsDistinct
  infer_instance

/-- Exact-url distinctness, the invariant `add_channel` actually
enforces. -/
def UrlsDistinct (channels : List ChannelDTO) : Prop :=
  channels.Pairwise (fun a b => a.url ≠ b.url)

instance (channels : List ChannelDTO) : Decidable (UrlsDistinct channels) := by
  unfold UrlsDistinct
  infer_instance

/-- All elements of the list are byte values, as holds for the UTF-8
encoding of any Python `str`. -/
def IsBytes (l : List Nat) : Prop :=
  ∀ b ∈ l, b < 256

instance (l : List Nat) : Decidable (IsBytes l) := by
  unfold IsBytes
  infer_instance

/-- A concrete two-channel store used for counterexamples. -/
def twoChannelFile : StoreData :=
  { channels :=
      [⟨"id-1", "A", "https://www.youtube.com/@a", true, "best"⟩,
       ⟨"id-2", "B", "https://www.youtube.com/@b", true, "best"⟩],
    global_settings := ⟨60, "./downloads", "./live_monitor.log", "time", 30, 500⟩ }

/-- A concrete two-thread registry used for witnesses. -/
def twoThreadRegistry : Registry :=
  [("id-1", startedHandle ⟨"id-1", "A", "https://www.youtube.com/@a", true, "best"⟩),
   ("id-2", startedHandle ⟨"id-2", "B", "https://www.youtube.com/@b", true, "best"⟩)]

/-!
## Theorems
-/

theorem runStrategies_neg (r : StratResult) (l : List StratResult) (h : negStrat r) :
    runStrategies (r :: l) = runStrategies l := by
  cases r with
  | ok o =>
    cases o with
    | none => rfl
    | some _ => exact absurd h id
  | exn _ => rfl

/-- C1: `check_if_live` attempts the three strategies in the fixed
order `/live` endpoint, `/streams` tab, channel page; the first
strategy returning a live stream determines the result `(true, info)`
without the later strategies being consulted (the result does not
depend on them); a strategy that raises or returns `None` falls
through to the next; if all three are negative or raise, the result is
`(false, none)`. -/
theorem check_if_live_protocol (m1 m2 m3 : String → StratResult) (a : String) :
    (∀ i, m1 a = StratResult.ok (some i) → check_if_live m1 m2 m3 a = (true, some i)) ∧
    (∀ i, negStrat (m1 a) → m2 a = StratResult.ok (some i) →
      check_if_live m1 m2 m3 a = (true, some i)) ∧
    (∀ i, negStrat (m1 a) → negStrat (m2 a) → m3 a = StratResult.ok (some i) →
      check_if_live m1 m2 m3 a = (true, some i)) ∧
    (negStrat (m1 a) → negStrat (m2 a) → negStrat (m3 a) →
      check_if_live m1 m2 m3 a = (false, none)) := by
  unfold check_if_live
  refine ⟨fun i h1 => ?_, fun i h1 h2 => ?_, fun i h1 h2 h3 => ?_, fun h1 h2 h3 => ?_⟩
  · rw [h1]; rfl
  · rw [runStrategies_neg _ _ h1, h2]; rfl
  · rw [runStrategies_neg _ _ h1, runStrategies_neg _ _ h2, h3]; rfl
  · rw [runStrategies_neg _ _ h1, runStrategies_neg _ _ h2, runStrategies_neg _ _ h3]
    rfl

/-- Witness for C1: with strategy 1 raising and strategy 2 positive,
`check_if_live` returns strategy 2's stream. -/
theorem check_if_live_protocol_witness :
    check_if_live (fun _ => StratResult.exn "network error")
      (fun _ => StratResult.ok (some ⟨"abc123", "https://www.youtube.com/watch?v=abc123", some "Show"⟩))
      (fun _ => StratResult.ok none) "https://www.youtube.com/@chan" =
      (true, some ⟨"abc123", "https://www.youtube.com/watch?v=abc123", some "Show"⟩) :=
  (check_if_live_protocol _ _ _ _).2.1 _ trivial rfl

/-- C3: `_handle_live_stream` leaves the monitor idle
(`is_downloading = false`) on every exit path — downloader returned
success, returned failure, or raised (in which case the exception still
propagates after the `finally`). -/
theorem handle_live_stream_always_returns_to_idle (outcome : DownloadOutcome)
    (s : MonitorSt) :
    (handle_live_stream outcome s).1.is_downloading = false ∧
    (∀ e, outcome = DownloadOutcome.exn e → (handle_live_stream outcome s).2 = some e) := by
  cases outcome <;> exact ⟨rfl, by intro e he <;> simp_all [handle_live_stream,
    pyTryFinally, handleLiveStreamBody]⟩

/-- C4: the segment length is `split_time_minutes * 60` seconds under
the time policy and `⌊split_size_mb * 8 / 5⌋` seconds under the size
policy (assumed bitrate 5 Mbps); in particular 10 minutes give 600
seconds and 100 MB give 160 seconds. -/
theorem computeSplitSeconds_policy (split_time_minutes split_size_mb : Nat)
    (ht : 1 ≤ split_time_minutes) (hs : 1 ≤ split_size_mb) :
    computeSplitSeconds "time" split_time_minutes split_size_mb =
      Except.ok (split_time_minutes * 60) ∧
    computeSplitSeconds "size" split_time_minutes split_size_mb =
      Except.ok (split_size_mb * 8 / 5) ∧
    computeSplitSeconds "time" 10 split_size_mb = Except.ok 600 ∧
    computeSplitSeconds "size" split_time_minutes 100 = Except.ok 160 :=
  ⟨rfl, rfl, rfl, rfl⟩

/-- Witness for C4 at `split_time_minutes = 10`, `split_size_mb = 100`. -/
theorem computeSplitSeconds_policy_witness :
    computeSplitSeconds "time" 10 100 = Except.ok 600 ∧
    computeSplitSeconds "size" 10 100 = Except.ok 160 :=
  ⟨(computeSplitSeconds_policy 10 100 (by decide) (by decide)).2.2.1,
   (computeSplitSeconds_policy 10 100 (by decide) (by decide)).2.2.2⟩

/-- C5: `StreamDownloader.download` never raises — any exception in its
body (non-zero ffmpeg exit, an exception while resolving media
locators, an invalid split mode) is caught and reported as the return
value `False`; when the body completes it returns `True`. -/
theorem download_never_raises (cfg : StreamDownloaderCfg) (env : DownloadEnv)
    (u : String) :
    (∀ e, downloadBody cfg env u = Except.error e →
      StreamDownloader.download cfg env u = false) ∧
    (cfg.split_mode ≠ "none" → env.ffmpeg_returncode ≠ 0 →
      StreamDownloader.download cfg env u = false) ∧
    (∀ e, cfg.split_mode ≠ "none" → env.extract_result = Except.error e →
      StreamDownloader.download cfg env u = false) ∧
    (∀ b, downloadBody cfg env u = Except.ok b →
      StreamDownloader.download cfg env u = true ∧ b = true) := by
  refine ⟨fun e he => ?_, fun hm hrc => ?_, fun e hm he => ?_, fun b hb => ?_⟩
  · unfold StreamDownloader.download
    rw [he]
  · unfold StreamDownloader.download downloadBody download_with_realtime_split
    simp only [if_neg hm]
    rcases hsplit : computeSplitSeconds cfg.split_mode cfg.split_time_minutes
      cfg.split_size_mb with e | n
    · rfl
    · rcases hex : env.extract_result with e | info
      · rfl
      · simp [hrc]
  · unfold StreamDownloader.download downloadBody download_with_realtime_split
    simp only [if_neg hm]
    rcases hsplit : computeSplitSeconds cfg.split_mode cfg.split_time_minutes
      cfg.split_size_mb with e1 | n
    · rfl
    · rw [he]
  · have hb2 : b = true := by
      unfold downloadBody at hb
      split at hb
      · rcases h2 : env.perform_result with e | x
        · rw [h2] at hb; cases hb
        · rw [h2] at hb; cases hb; rfl
      · rcases h2 : download_with_realtime_split cfg env u with e | x
        · rw [h2] at hb; cases hb
        · rw [h2] at hb; cases hb; rfl
    subst hb2
    refine ⟨?_, rfl⟩
    unfold StreamDownloader.download
    rw [hb]

/-- Witness for C5: a non-zero ffmpeg exit under the time policy is
reported as `False`. -/
theorem download_never_raises_witness :
    StreamDownloader.download ⟨"./downloads", "best", "time", 30, 500⟩
      ⟨Except.ok ⟨none, some "https://m"⟩, 1, Except.ok ()⟩ "https://s" = false :=
  (download_never_raises _ _ _).2.1 (by decide) (by decide)

/-- C6 counterexample: `GlobalSettingsDTO` construction accepts
`split_time_minutes = 0` (and would equally accept a non-positive
`split_size_mb`), so an invalid settings record with
`splitTimeMinutes < 1` is not rejected. -/
theorem mkGlobalSettingsDTO_accepts_zero_split_time :
    mkGlobalSettingsDTO 60 "./downloads" "./live_monitor.log" "time" 0 500 =
      Except.ok ⟨60, "./downloads", "./live_monitor.log", "time", 0, 500⟩ ∧
    (0 : Int) < 1 :=
  ⟨rfl, by decide⟩

/-- C6 (amended): `GlobalSettingsDTO` construction succeeds exactly
when `check_interval_seconds ≥ 1` and the split mode is one of "time",
"size", "none"; `split_time_minutes` and `split_size_mb` are not
validated. -/
theorem mkGlobalSettingsDTO_validation (ci : Int) (dd lf sm : String) (stm ssm : Int) :
    (∃ g, mkGlobalSettingsDTO ci dd lf sm stm ssm = Except.ok g) ↔
      (1 ≤ ci ∧ (sm = "time" ∨ sm = "size" ∨ sm = "none")) := by
  unfold mkGlobalSettingsDTO
  by_cases h1 : ci < 1
  · rw [if_pos h1]
    constructor
    · rintro ⟨g, hg⟩
      cases hg
    · rintro ⟨hci, _⟩
      omega
  · by_cases h2 : sm = "time" ∨ sm = "size" ∨ sm = "none"
    · rw [if_neg h1, if_neg (not_not_intro h2)]
      constructor
      · intro _
        exact ⟨by omega, h2⟩
      · intro _
        exact ⟨_, rfl⟩
    · rw [if_neg h1, if_pos h2]
      constructor
      · rintro ⟨g, hg⟩
        cases hg
      · rintro ⟨_, hsm⟩
        exact absurd hsm h2

theorem regLookup_not_mem (reg : Registry) (cid : String)
    (h : cid ∉ reg.map Prod.fst) : regLookup reg cid = none := by
  induction reg with
  | nil => rfl
  | cons p rest ih =>
    obtain ⟨k, v⟩ := p
    simp only [List.map_cons, List.mem_cons, not_or] at h
    simp only [regLookup]
    rw [if_neg (fun he => h.1 he.symm)]
    exact ih h.2

theorem regLookup_regErase_self (reg : Registry) (cid : String)
    (hnd : (reg.map Prod.fst).Nodup) : regLookup (regErase reg cid) cid = none := by
  induction reg with
  | nil => rfl
  | cons p rest ih =>
    obtain ⟨k, v⟩ := p
    simp only [List.map_cons, List.nodup_cons] at hnd
    simp only [regErase]
    by_cases hk : k = cid
    · rw [if_pos hk]
      subst hk
      exact regLookup_not_mem rest k hnd.1
    · rw [if_neg hk]
      simp only [regLookup]
      rw [if_neg hk]
      exact ih hnd.2

theorem regLookup_regErase_other (reg : Registry) (cid cid2 : String)
    (hne : cid2 ≠ cid) :
    regLookup (regErase reg cid) cid2 = regLookup reg cid2 := by
  induction reg with
  | nil => rfl
  | cons p rest ih =>
    obtain ⟨k, v⟩ := p
    simp only [regErase]
    by_cases hk : k = cid
    · rw [if_pos hk]
      simp only [regLookup]
      rw [if_neg (by rw [hk]; exact fun he => hne he.symm)]
    · rw [if_neg hk]
      simp only [regLookup]
      by_cases hk2 : k = cid2
      · rw [if_pos hk2, if_pos hk2]
      · rw [if_neg hk2, if_neg hk2]
        exact ih

/-- C8: removing an unregistered id is a no-op — the supervisor state
(including every registered monitor) is unchanged and no thread is
stopped; removing a registered id stops exactly that thread, removes
exactly that entry, and leaves every other entry and the running flag
untouched. -/
theorem remove_channel_and_stop_monitoring_frame (m : MultiMonitorSt) (cid : String)
    (hnd : (m.monitor_threads.map Prod.fst).Nodup) :
    (regLookup m.monitor_threads cid = none →
      remove_channel_and_stop_monitoring m cid = (m, none)) ∧
    (∀ h, regLookup m.monitor_threads cid = some h →
      (remove_channel_and_stop_monitoring m cid).2 = some (stopHandle h) ∧
      regLookup (remove_channel_and_stop_monitoring m cid).1.monitor_threads cid = none ∧
      (∀ cid2, cid2 ≠ cid →
        regLookup (remove_channel_and_stop_monitoring m cid).1.monitor_threads cid2 =
          regLookup m.monitor_threads cid2) ∧
      (remove_channel_and_stop_monitoring m cid).1.is_running = m.is_running) := by
  constructor
  · intro hnone
    unfold remove_channel_and_stop_monitoring
    rw [hnone]
  · intro h hsome
    unfold remove_channel_and_stop_monitoring
    rw [hsome]
    refine ⟨rfl, ?_, ?_, rfl⟩
    · exact regLookup_regErase_self m.monitor_threads cid hnd
    · intro cid2 hne
      exact regLookup_regErase_other m.monitor_threads cid cid2 hne

/-- Witness for C8: in a two-entry registry, removing "id-1" stops that
thread and deregisters it. -/
theorem remove_channel_and_stop_monitoring_frame_witness :
    (remove_channel_and_stop_monitoring ⟨true, twoThreadRegistry⟩ "id-1").2 =
      some (stopHandle (startedHandle ⟨"id-1", "A", "https://www.youtube.com/@a", true, "best"⟩)) ∧
    regLookup (remove_channel_and_stop_monitoring
      ⟨true, twoThreadRegistry⟩ "id-1").1.monitor_threads "id-1" = none := by
  have h := (remove_channel_and_stop_monitoring_frame ⟨true, twoThreadRegistry⟩ "id-1"
      (by decide)).2
    (startedHandle ⟨"id-1", "A", "https://www.youtube.com/@a", true, "best"⟩) (by decide)
  exact ⟨h.1, h.2.1⟩

/-- C9: when the supervisor's running flag is false,
`add_channel_and_start_monitoring` returns without doing anything: the
registry (and the whole supervisor state) is unchanged and no monitor
is constructed or started, silently. -/
theorem add_channel_and_start_monitoring_requires_running (m : MultiMonitorSt)
    (ch : ChannelDTO) (h : m.is_running = false) :
    add_channel_and_start_monitoring m ch = m := by
  unfold add_channel_and_start_monitoring
  rw [h]
  simp

/-- Witness for C9 on a stopped two-thread supervisor. -/
theorem add_channel_and_start_monitoring_requires_running_witness :
    add_channel_and_start_monitoring ⟨false, twoThreadRegistry⟩
      ⟨"id-3", "C", "https://www.youtube.com/@c", true, "best"⟩ =
      ⟨false, twoThreadRegistry⟩ :=
  add_channel_and_start_monitoring_requires_running _ _ rfl

/-- C10: store-level `remove_channel` returns `True` and rewrites the
file to exactly the other channels when the id is present; it returns
`False` and performs no write (the middle component) when the id is
absent. -/
theorem remove_channel_spec (file : StoreData) (cid : String) :
    ((∃ ch ∈ file.channels, ch.id = cid) →
      ChannelManager.remove_channel file cid =
        ({ file with channels := file.channels.filter (fun ch => ch.id ≠ cid) },
         true, true)) ∧
    ((∀ ch ∈ file.channels, ch.id ≠ cid) →
      ChannelManager.remove_channel file cid = (file, false, false)) := by
  constructor
  · rintro ⟨ch, hmem, hid⟩
    have hlt : (file.channels.filter (fun c => c.id ≠ cid)).length <
        file.channels.length := by
      apply List.length_filter_lt_length_iff_exists.mpr
      exact ⟨ch, hmem, by simp [hid]⟩
    unfold ChannelManager.remove_channel
    rw [if_pos hlt]
  · intro hall
    have heq : file.channels.filter (fun c => c.id ≠ cid) = file.channels := by
      apply List.filter_eq_self.mpr
      intro a ha
      simpa using hall a ha
    unfold ChannelManager.remove_channel
    rw [heq, if_neg (lt_irrefl _)]

/-- Witness for C10: removing an absent id from the two-channel store
returns `False` with no write; removing "id-1" returns `True`. -/
theorem remove_channel_spec_witness :
    ChannelManager.remove_channel twoChannelFile "id-9" = (twoChannelFile, false, false) ∧
    (ChannelManager.remove_channel twoChannelFile "id-1").2.2 = true := by
  refine ⟨(remove_channel_spec twoChannelFile "id-9").2 (by decide), ?_⟩
  rw [(remove_channel_spec twoChannelFile "id-1").1 (by decide)]

/-- C2 counterexample: the two-channel store satisfies the
normalized-address uniqueness invariant, but `update_channel` — a
mutating store operation — accepts setting channel "id-2"'s url to
channel "id-1"'s url and rewrites the store with two Sources of equal
(hence equal-normalized) address: the invariant is not preserved by
every mutating operation.  Moreover `add_channel` does not raise on a
normalized-address duplicate: adding
"https://www.youtube.com/@a?list=X", whose normalized address equals
stored "id-1"'s but whose raw url string differs, succeeds — the
duplicate scan compares raw url strings only. -/
theorem update_channel_breaks_uniqueness :
    NormalizedAddrsDistinct twoChannelFile.channels ∧
    (¬ NormalizedAddrsDistinct
      ((ChannelManager.update_channel twoChannelFile "id-2" none
          (some "https://www.youtube.com/@a") none none).1.channels)) ∧
    ChannelManager.add_channel twoChannelFile "C"
        "https://www.youtube.com/@a?list=X" true "best" "id-3" =
      ({ twoChannelFile with channels := twoChannelFile.channels ++
          [⟨"id-3", "C", "https://www.youtube.com/@a?list=X", true, "best"⟩] },
       Except.ok ⟨"id-3", "C", "https://www.youtube.com/@a?list=X", true, "best"⟩) ∧
    normalizedAddr ⟨"id-3", "C", "https://www.youtube.com/@a?list=X", true, "best"⟩ =
      normalizedAddr ⟨"id-1", "A", "https://www.youtube.com/@a", true, "best"⟩ ∧
    "https://www.youtube.com/@a?list=X" ≠ "https://www.youtube.com/@a" :=
  ⟨by decide, by decide, rfl, by decide, by decide⟩

/-- C2 (amended): only `add_channel` enforces address uniqueness, and
its duplicate check compares the raw stored url strings, not
normalized addresses: adding a channel whose url string equals a
stored channel's raises `ValueError` and leaves the store file
unchanged; adding a (valid) channel whose raw url string differs from
every stored one succeeds and appends it, even when its normalized
address matches a stored channel's; `add_channel` preserves
pairwise-distinct raw urls; `update_channel` performs no duplicate
check. -/
theorem add_channel_uniqueness (file : StoreData) (name url : String)
    (enabled : Bool) (fmt new_id : String) :
    ((∃ ch ∈ file.channels, ch.url = url) →
      ChannelManager.add_channel file name url enabled fmt new_id =
        (file, Except.error ("Channel with URL " ++ url ++ " already exists"))) ∧
    ((∀ ch ∈ file.channels, ch.url ≠ url) → url ≠ "" → name ≠ "" →
      ChannelManager.add_channel file name url enabled fmt new_id =
        ({ file with channels := file.channels ++ [⟨new_id, name, url, enabled, fmt⟩] },
         Except.ok ⟨new_id, name, url, enabled, fmt⟩)) ∧
    (UrlsDistinct file.channels →
      UrlsDistinct (ChannelManager.add_channel file name url enabled fmt new_id).1.channels) := by
  refine ⟨?_, ?_, ?_⟩
  · rintro ⟨ch, hmem, hurl⟩
    unfold ChannelManager.add_channel
    rw [if_pos (List.any_eq_true.mpr ⟨ch, hmem, by simp [hurl]⟩)]
  · intro hall hu hn
    have hany : ¬ (file.channels.any (fun ch => decide (ch.url = url)) = true) := by
      rw [List.any_eq_true]
      rintro ⟨ch, hch, he⟩
      rw [decide_eq_true_iff] at he
      exact hall ch hch he
    unfold ChannelManager.add_channel
    rw [if_neg hany]
    unfold mkChannelDTO
    rw [if_neg hu, if_neg hn]
  · intro hdist
    unfold ChannelManager.add_channel
    by_cases hany : file.channels.any (fun ch => ch.url = url)
    · rw [if_pos hany]
      exact hdist
    · rw [if_neg hany]
      cases hmk : mkChannelDTO new_id name url enabled fmt with
      | error e => exact hdist
      | ok ch =>
        have hch : ch.url = url := by
          unfold mkChannelDTO at hmk
          split at hmk
          · cases hmk
          · split at hmk
            · cases hmk
            · cases hmk
              rfl
        have hnone : ∀ c ∈ file.channels, c.url ≠ url := by
          intro c hc he
          exact hany (List.any_eq_true.mpr ⟨c, hc, by simp [he]⟩)
        unfold UrlsDistinct
        rw [List.pairwise_append]
        refine ⟨hdist, List.pairwise_singleton _ _, fun a ha b hb => ?_⟩
        rw [List.mem_singleton] at hb
        subst hb
        rw [hch]
        exact hnone a ha

/-- Witness for C2's amended claim: adding a channel with "id-1"'s
exact url to the two-channel store raises and leaves the store
unchanged, while adding a raw-distinct url (whose normalized address
matches "id-1"'s) succeeds and appends. -/
theorem add_channel_uniqueness_witness :
    ChannelManager.add_channel twoChannelFile "C" "https://www.youtube.com/@a"
      true "best" "id-3" =
      (twoChannelFile,
       Except.error ("Channel with URL " ++ "https://www.youtube.com/@a" ++
         " already exists")) ∧
    ChannelManager.add_channel twoChannelFile "C"
        "https://www.youtube.com/@a?list=X" true "best" "id-3" =
      ({ twoChannelFile with channels := twoChannelFile.channels ++
          [⟨"id-3", "C", "https://www.youtube.com/@a?list=X", true, "best"⟩] },
       Except.ok ⟨"id-3", "C", "https://www.youtube.com/@a?list=X", true, "best"⟩) :=
  ⟨(add_channel_uniqueness _ _ _ _ _ _).1 (by decide),
   (add_channel_uniqueness _ _ _ _ _ _).2.1 (by decide) (by decide) (by decide)⟩

theorem hexVal_lt (b n : Nat) (h : hexVal b = some n) : n < 16 := by
  unfold hexVal at h
  split at h
  · cases h; omega
  · split at h
    · cases h; omega
    · split at h
      · cases h; omega
      · cases h

theorem hexVal_hexDigitUpper : ∀ n < 16, hexVal (hexDigitUpper n) = some n := by decide

theorem unquotePlus_cons_other (b : Nat) (l : List Nat) (h43 : b ≠ 43) (h37 : b ≠ 37) :
    unquotePlus (b :: l) = b :: unquotePlus l := by
  rcases l with _ | ⟨a, _ | ⟨c, rest⟩⟩ <;> simp [unquotePlus, h43, h37]

theorem unquotePlus_cons_plus (l : List Nat) : unquotePlus (43 :: l) = 32 :: unquotePlus l := by
  rcases l with _ | ⟨a, _ | ⟨c, rest⟩⟩ <;> simp [unquotePlus]

theorem unquotePlus_percent (a c : Nat) (l : List Nat) (ha : Nat) (hc : Nat)
    (h1 : hexVal a = some ha) (h2 : hexVal c = some hc) :
    unquotePlus (37 :: a :: c :: l) = (16 * ha + hc) :: unquotePlus l := by
  simp [unquotePlus, h1, h2]

theorem isSafeByte_ne (b : Nat) (h : isSafeByte b = true) :
    b ≠ 43 ∧ b ≠ 37 ∧ b ≠ 35 ∧ b ≠ 38 ∧ b ≠ 61 ∧ b ≠ 63 ∧ b ≠ 32 := by
  unfold isSafeByte at h
  rw [decide_eq_true_iff] at h
  omega

theorem quotePlus_cons (b : Nat) (s : List Nat) :
    quotePlus (b :: s) = quotePlusByte b ++ quotePlus s := by
  simp [quotePlus]

theorem unquotePlus_quotePlus_append (s t : List Nat) (hs : IsBytes s) :
    unquotePlus (quotePlus s ++ t) = s ++ unquotePlus t := by
  induction s with
  | nil => simp [quotePlus]
  | cons b s2 ih =>
    have hb : b < 256 := hs b (List.mem_cons_self _ _)
    have hs2 : IsBytes s2 := fun c hc => hs c (List.mem_cons_of_mem _ hc)
    rw [quotePlus_cons, List.append_assoc]
    unfold quotePlusByte
    by_cases hsafe : isSafeByte b = true
    · rw [if_pos hsafe]
      have hne := isSafeByte_ne b hsafe
      simp only [List.cons_append, List.nil_append]
      rw [unquotePlus_cons_other b _ hne.1 hne.2.1, ih hs2]
    · rw [if_neg hsafe]
      by_cases h32 : b = 32
      · rw [if_pos h32]
        simp only [List.cons_append, List.nil_append]
        rw [unquotePlus_cons_plus, ih hs2, h32]
      · rw [if_neg h32]
        simp only [List.cons_append, List.nil_append]
        rw [unquotePlus_percent _ _ _ (b / 16) (b % 16)
          (hexVal_hexDigitUpper _ (by omega))
          (hexVal_hexDigitUpper _ (Nat.mod_lt _ (by norm_num))), ih hs2]
        rw [Nat.div_add_mod]

theorem hexDigitUpper_mem (n : Nat) :
    hexDigitUpper n ≠ 35 ∧ hexDigitUpper n ≠ 38 ∧ hexDigitUpper n ≠ 61 ∧ hexDigitUpper n ≠ 63 := by
  unfold hexDigitUpper
  split <;> omega

theorem quotePlus_mem_ne (s : List Nat) (c : Nat) (hc : c ∈ quotePlus s) :
    c ≠ 35 ∧ c ≠ 38 ∧ c ≠ 61 ∧ c ≠ 63 := by
  unfold quotePlus at hc
  rw [List.mem_flatten] at hc
  obtain ⟨l, hl, hcl⟩ := hc
  rw [List.mem_map] at hl
  obtain ⟨b, _, hb⟩ := hl
  subst hb
  unfold quotePlusByte at hcl
  by_cases hsafe : isSafeByte b = true
  · rw [if_pos hsafe] at hcl
    rw [List.mem_singleton] at hcl
    have := isSafeByte_ne b hsafe
    omega
  · rw [if_neg hsafe] at hcl
    by_cases h32 : b = 32
    · rw [if_pos h32] at hcl
      rw [List.mem_singleton] at hcl
      omega
    · rw [if_neg h32] at hcl
      simp only [List.mem_cons, List.mem_singleton, List.not_mem_nil, or_false] at hcl
      rcases hcl with h | h | h
      · omega
      · have := hexDigitUpper_mem (b / 16)
        omega
      · have := hexDigitUpper_mem (b % 16)
        omega

theorem splitOnFirst_not_mem (sep : Nat) (l : List Nat) (h : sep ∉ l) :
    splitOnFirst sep l = (l, none) := by
  induction l with
  | nil => rfl
  | cons b rest ih =>
    rw [List.mem_cons, not_or] at h
    unfold splitOnFirst
    rw [if_neg (fun he => h.1 he.symm), ih h.2]

theorem splitOnFirst_append (sep : Nat) (pre post : List Nat) (h : sep ∉ pre) :
    splitOnFirst sep (pre ++ sep :: post) = (pre, some post) := by
  induction pre with
  | nil => simp [splitOnFirst]
  | cons b rest ih =>
    rw [List.mem_cons, not_or] at h
    rw [List.cons_append]
    unfold splitOnFirst
    rw [if_neg (fun he => h.1 he.symm), ih h.2]

theorem sep_not_mem_splitOnFirst_fst (sep : Nat) (l : List Nat) :
    sep ∉ (splitOnFirst sep l).1 := by
  induction l with
  | nil => simp [splitOnFirst]
  | cons b rest ih =>
    unfold splitOnFirst
    by_cases hb : b = sep
    · rw [if_pos hb]
      simp
    · rw [if_neg hb]
      simp only [List.mem_cons, not_or]
      exact ⟨fun he => hb he.symm, ih⟩

theorem splitOnFirst_fst_subset (sep : Nat) (l : List Nat) :
    ∀ c ∈ (splitOnFirst sep l).1, c ∈ l := by
  induction l with
  | nil => simp [splitOnFirst]
  | cons b rest ih =>
    unfold splitOnFirst
    by_cases hb : b = sep
    · rw [if_pos hb]
      simp
    · rw [if_neg hb]
      intro c hc
      rcases List.mem_cons.mp hc with h | h
      · exact List.mem_cons.mpr (Or.inl h)
      · exact List.mem_cons.mpr (Or.inr (ih c h))

theorem splitOnFirst_snd_subset (sep : Nat) (l r : List Nat)
    (hr : (splitOnFirst sep l).2 = some r) : ∀ c ∈ r, c ∈ l := by
  induction l generalizing r with
  | nil => cases hr
  | cons b rest ih =>
    unfold splitOnFirst at hr
    by_cases hb : b = sep
    · rw [if_pos hb] at hr
      cases hr
      intro c hc
      exact List.mem_cons_of_mem _ hc
    · rw [if_neg hb] at hr
      intro c hc
      exact List.mem_cons_of_mem _ (ih r hr c hc)

theorem splitAllOn_not_mem (sep : Nat) (t : List Nat) (h : sep ∉ t) :
    splitAllOn sep t = [t] := by
  induction t with
  | nil => rfl
  | cons b rest ih =>
    rw [List.mem_cons, not_or] at h
    unfold splitAllOn
    rw [if_neg (fun he => h.1 he.symm), ih h.2]

theorem splitAllOn_append (sep : Nat) (t rest : List Nat) (h : sep ∉ t) :
    splitAllOn sep (t ++ sep :: rest) = t :: splitAllOn sep rest := by
  induction t with
  | nil =>
    rw [List.nil_append]
    conv_lhs => unfold splitAllOn
    rw [if_pos rfl]
  | cons b t2 ih =>
    rw [List.mem_cons, not_or] at h
    rw [List.cons_append]
    conv_lhs => unfold splitAllOn
    rw [if_neg (fun he => h.1 he.symm), ih h.2]

theorem joinAmpTokens_singleton (t : List Nat) : joinAmpTokens [t] = t := by
  show t ++ (List.map (fun u => ampByte :: u) []).flatten = t
  simp

theorem joinAmpTokens_cons_cons (t u : List Nat) (ts : List (List Nat)) :
    joinAmpTokens (t :: u :: ts) = t ++ 38 :: joinAmpTokens (u :: ts) := by
  show t ++ ((u :: ts).map fun w => ampByte :: w).flatten =
    t ++ 38 :: (u ++ (ts.map fun w => ampByte :: w).flatten)
  rw [List.map_cons, List.flatten_cons]
  rfl

theorem splitAllOn_joinAmpTokens (ts : List (List Nat))
    (h : ∀ t ∈ ts, (38 : Nat) ∉ t) (hne : ts ≠ []) :
    splitAllOn 38 (joinAmpTokens ts) = ts := by
  induction ts with
  | nil => exact absurd rfl hne
  | cons t ts2 ih =>
    cases ts2 with
    | nil =>
      rw [joinAmpTokens_singleton]
      exact splitAllOn_not_mem 38 t (h t (List.mem_cons_self _ _))
    | cons u ts3 =>
      rw [joinAmpTokens_cons_cons, splitAllOn_append 38 t _ (h t (List.mem_cons_self _ _)),
        ih (fun v hv => h v (List.mem_cons_of_mem _ hv)) (by simp)]

theorem filterMap_all_some {α β : Type} (f : α → Option β) (g : α → β) (l : List α)
    (h : ∀ x ∈ l, f x = some (g x)) : l.filterMap f = l.map g := by
  induction l with
  | nil => rfl
  | cons x xs ih =>
    rw [List.filterMap_cons, h x (List.mem_cons_self _ _), List.map_cons,
      ih (fun y hy => h y (List.mem_cons_of_mem _ hy))]

theorem encTok_ne_nil (kv : List Nat × List Nat) : encTok kv ≠ [] := by
  unfold encTok
  intro h
  have := congrArg List.length h
  simp at this

theorem amp_not_mem_encTok (kv : List Nat × List Nat) : (38 : Nat) ∉ encTok kv := by
  unfold encTok
  rw [List.mem_append, List.mem_cons, not_or, not_or]
  refine ⟨fun h => (quotePlus_mem_ne _ _ h).2.1 rfl, by decide, 
    fun h => (quotePlus_mem_ne _ _ h).2.1 rfl⟩

theorem parse_encTok (k v : List Nat) (hk : IsBytes k) (hv : IsBytes v) :
    splitOnFirst 61 (encTok (k, v)) = (quotePlus k, some (quotePlus v)) ∧
    unquotePlus (quotePlus k) = k ∧ unquotePlus (quotePlus v) = v := by
  refine ⟨?_, ?_, ?_⟩
  · exact splitOnFirst_append 61 _ _ (fun h => (quotePlus_mem_ne _ _ h).2.2.1 rfl)
  · have h1 := unquotePlus_quotePlus_append k [] hk
    simp only [List.append_nil, show unquotePlus ([] : List Nat) = [] from rfl] at h1
    exact h1
  · have h1 := unquotePlus_quotePlus_append v [] hv
    simp only [List.append_nil, show unquotePlus ([] : List Nat) = [] from rfl] at h1
    exact h1

theorem parseQsl_encoded (ps : List (List Nat × List Nat))
    (hps : ∀ kv ∈ ps, IsBytes kv.1 ∧ IsBytes kv.2) (hne : ps ≠ []) :
    parseQsl (joinAmpTokens (ps.map encTok)) = ps := by
  unfold parseQsl ampByte eqByte
  rw [splitAllOn_joinAmpTokens (ps.map encTok)
    (by
      intro t ht
      rw [List.mem_map] at ht
      obtain ⟨kv, _, hkv⟩ := ht
      rw [← hkv]
      exact amp_not_mem_encTok kv)
    (by
      intro h
      exact hne (List.map_eq_nil_iff.mp h))]
  rw [List.filterMap_map]
  apply (filterMap_all_some _ id _ ?_).trans (List.map_id _)
  intro p hp
  obtain ⟨hbk, hbv⟩ := hps p hp
  obtain ⟨hsp, huk, huv⟩ := parse_encTok p.1 p.2 hbk hbv
  simp only [Function.comp_apply]
  rw [if_neg (encTok_ne_nil p)]
  have hp2 : encTok p = encTok (p.1, p.2) := rfl
  rw [hp2, hsp]
  simp only [huk, huv]
  rfl

theorem insertPair_not_mem (acc : List (List Nat × List (List Nat))) (k v : List Nat)
    (h : ∀ kv ∈ acc, kv.1 ≠ k) : insertPair acc k v = acc ++ [(k, [v])] := by
  induction acc with
  | nil => rfl
  | cons kv2 rest ih =>
    obtain ⟨k1, vs⟩ := kv2
    unfold insertPair
    rw [if_neg (h (k1, vs) (List.mem_cons_self _ _)),
      ih (fun kv3 h3 => h kv3 (List.mem_cons_of_mem _ h3)), List.cons_append]

theorem insertPair_last (acc : List (List Nat × List (List Nat))) (k : List Nat)
    (ws : List (List Nat)) (v : List Nat) (h : ∀ kv ∈ acc, kv.1 ≠ k) :
    insertPair (acc ++ [(k, ws)]) k v = acc ++ [(k, ws ++ [v])] := by
  induction acc with
  | nil =>
    rw [List.nil_append, List.nil_append]
    show (if k = k then (k, ws ++ [v]) :: ([] : List (List Nat × List (List Nat)))
      else (k, ws) :: insertPair [] k v) = [(k, ws ++ [v])]
    rw [if_pos rfl]
  | cons kv2 rest ih =>
    obtain ⟨k1, vs⟩ := kv2
    rw [List.cons_append]
    unfold insertPair
    rw [if_neg (h (k1, vs) (List.mem_cons_self _ _)),
      ih (fun kv3 h3 => h kv3 (List.mem_cons_of_mem _ h3)), List.cons_append]

theorem foldl_insertPair_values (acc : List (List Nat × List (List Nat))) (k : List Nat)
    (ws : List (List Nat)) (vs : List (List Nat)) (h : ∀ kv ∈ acc, kv.1 ≠ k) :
    List.foldl (fun a kv => insertPair a kv.1 kv.2) (acc ++ [(k, ws)])
      (vs.map fun v => (k, v)) = acc ++ [(k, ws ++ vs)] := by
  induction vs generalizing ws with
  | nil => simp
  | cons v vs2 ih =>
    rw [List.map_cons, List.foldl_cons]
    have hstep : insertPair (acc ++ [(k, ws)]) k v = acc ++ [(k, ws ++ [v])] :=
      insertPair_last acc k ws v h
    show List.foldl _ (insertPair (acc ++ [(k, ws)]) k v) _ = _
    rw [hstep, ih (ws ++ [v]), List.append_assoc]
    rfl

theorem foldl_insertPair_flattenPairs (g acc : List (List Nat × List (List Nat)))
    (hdisj : ∀ kv ∈ g, ∀ kv2 ∈ acc, kv.1 ≠ kv2.1)
    (hkeys : (g.map Prod.fst).Nodup)
    (hvals : ∀ kv ∈ g, kv.2 ≠ []) :
    List.foldl (fun a kv => insertPair a kv.1 kv.2) acc (flattenPairs g) = acc ++ g := by
  induction g generalizing acc with
  | nil => simp [flattenPairs]
  | cons kv g2 ih =>
    obtain ⟨k, vs⟩ := kv
    have hflat : flattenPairs ((k, vs) :: g2) =
        (vs.map fun v => (k, v)) ++ flattenPairs g2 := by
      unfold flattenPairs
      rw [List.map_cons, List.flatten_cons]
    rw [hflat, List.foldl_append]
    obtain ⟨v, vs2, rfl⟩ : ∃ v vs2, vs = v :: vs2 := by
      cases vs with
      | nil => exact absurd rfl (hvals (k, []) (List.mem_cons_self _ _))
      | cons a b => exact ⟨a, b, rfl⟩
    have hknot : ∀ kv2 ∈ acc, kv2.1 ≠ k :=
      fun kv2 h2 he => (hdisj (k, v :: vs2) (List.mem_cons_self _ _) kv2 h2) he.symm
    have hblock : List.foldl (fun a kv => insertPair a kv.1 kv.2) acc
        ((v :: vs2).map fun w => (k, w)) = acc ++ [(k, v :: vs2)] := by
      rw [List.map_cons, List.foldl_cons]
      show List.foldl _ (insertPair acc k v) _ = _
      rw [insertPair_not_mem acc k v (fun kv2 h2 => hknot kv2 h2),
        foldl_insertPair_values acc k [v] vs2 (fun kv2 h2 => hknot kv2 h2)]
      rfl
    rw [hblock]
    simp only [List.map_cons, List.nodup_cons] at hkeys
    have hdisj2 : ∀ kv ∈ g2, ∀ kv2 ∈ acc ++ [(k, v :: vs2)], kv.1 ≠ kv2.1 := by
      intro kv3 h3 kv2 h2
      rcases List.mem_append.mp h2 with h2a | h2b
      · exact hdisj kv3 (List.mem_cons_of_mem _ h3) kv2 h2a
      · rw [List.mem_singleton] at h2b
        subst h2b
        intro he
        have hm : kv3.1 ∈ g2.map Prod.fst := List.mem_map_of_mem Prod.fst h3
        rw [he] at hm
        exact hkeys.1 hm
    rw [ih (acc ++ [(k, v :: vs2)]) hdisj2 hkeys.2
      (fun kv3 h3 => hvals kv3 (List.mem_cons_of_mem _ h3)), List.append_assoc]
    rfl

theorem groupPairs_flattenPairs (g : List (List Nat × List (List Nat)))
    (hkeys : (g.map Prod.fst).Nodup) (hvals : ∀ kv ∈ g, kv.2 ≠ []) :
    groupPairs (flattenPairs g) = g := by
  unfold groupPairs
  rw [foldl_insertPair_flattenPairs g [] (fun kv _ kv2 h2 => absurd h2 (List.not_mem_nil kv2))
    hkeys hvals, List.nil_append]

theorem insertPair_keys (acc : List (List Nat × List (List Nat))) (k v : List Nat) :
    ((insertPair acc k v).map Prod.fst = acc.map Prod.fst ∧ k ∈ acc.map Prod.fst) ∨
    ((insertPair acc k v).map Prod.fst = acc.map Prod.fst ++ [k] ∧
      k ∉ acc.map Prod.fst) := by
  induction acc with
  | nil =>
    right
    exact ⟨rfl, by simp⟩
  | cons kv2 rest ih =>
    obtain ⟨k1, vs⟩ := kv2
    unfold insertPair
    by_cases hk1 : k1 = k
    · left
      rw [if_pos hk1]
      exact ⟨rfl, by rw [List.map_cons]; exact List.mem_cons.mpr (Or.inl hk1.symm)⟩
    · rw [if_neg hk1]
      rcases ih with ⟨h1, h2⟩ | ⟨h1, h2⟩
      · left
        refine ⟨?_, ?_⟩
        · rw [List.map_cons, List.map_cons, h1]
        · rw [List.map_cons]
          exact List.mem_cons_of_mem _ h2
      · right
        refine ⟨?_, ?_⟩
        · rw [List.map_cons, List.map_cons, h1, List.cons_append]
        · rw [List.map_cons, List.mem_cons]
          rintro (h | h)
          · exact hk1 h.symm
          · exact h2 h

theorem insertPair_nodup (acc : List (List Nat × List (List Nat))) (k v : List Nat)
    (h : (acc.map Prod.fst).Nodup) : ((insertPair acc k v).map Prod.fst).Nodup := by
  rcases insertPair_keys acc k v with ⟨h1, _⟩ | ⟨h1, h2⟩
  · rw [h1]
    exact h
  · rw [h1]
    refine List.Nodup.append h (List.nodup_singleton k) ?_
    intro a ha hb
    rw [List.mem_singleton] at hb
    subst hb
    exact h2 ha

theorem insertPair_props (acc : List (List Nat × List (List Nat))) (k v : List Nat)
    (hvals : ∀ kv ∈ acc, kv.2 ≠ [])
    (hb : ∀ kv ∈ acc, IsBytes kv.1 ∧ ∀ w ∈ kv.2, IsBytes w)
    (hk : IsBytes k) (hv : IsBytes v) :
    ∀ kv ∈ insertPair acc k v,
      kv.2 ≠ [] ∧ (IsBytes kv.1 ∧ ∀ w ∈ kv.2, IsBytes w) := by
  induction acc with
  | nil =>
    intro kv hkv
    rw [show insertPair [] k v = [(k, [v])] from rfl, List.mem_singleton] at hkv
    subst hkv
    refine ⟨by simp, hk, ?_⟩
    intro w hw
    rw [List.mem_singleton] at hw
    subst hw
    exact hv
  | cons kv2 rest ih =>
    obtain ⟨k1, vs⟩ := kv2
    unfold insertPair
    by_cases hk1 : k1 = k
    · rw [if_pos hk1]
      intro kv hkv
      rcases List.mem_cons.mp hkv with h | h
      · subst h
        have h2 := hb (k1, vs) (List.mem_cons_self _ _)
        refine ⟨by simp, h2.1, ?_⟩
        intro w hw
        rcases List.mem_append.mp hw with hw1 | hw1
        · exact h2.2 w hw1
        · rw [List.mem_singleton] at hw1
          subst hw1
          exact hv
      · exact ⟨hvals kv (List.mem_cons_of_mem _ h),
          hb kv (List.mem_cons_of_mem _ h)⟩
    · rw [if_neg hk1]
      intro kv hkv
      rcases List.mem_cons.mp hkv with h | h
      · subst h
        exact ⟨hvals (k1, vs) (List.mem_cons_self _ _),
          hb (k1, vs) (List.mem_cons_self _ _)⟩
      · exact ih (fun kv3 h3 => hvals kv3 (List.mem_cons_of_mem _ h3))
          (fun kv3 h3 => hb kv3 (List.mem_cons_of_mem _ h3)) kv h

theorem foldl_insertPair_inv (ps : List (List Nat × List Nat))
    (acc : List (List Nat × List (List Nat)))
    (hps : ∀ p ∈ ps, IsBytes p.1 ∧ IsBytes p.2)
    (hnd : (acc.map Prod.fst).Nodup)
    (hprops : ∀ kv ∈ acc, kv.2 ≠ [] ∧ (IsBytes kv.1 ∧ ∀ w ∈ kv.2, IsBytes w)) :
    ((List.foldl (fun a kv => insertPair a kv.1 kv.2) acc ps).map Prod.fst).Nodup ∧
    ∀ kv ∈ List.foldl (fun a kv => insertPair a kv.1 kv.2) acc ps,
      kv.2 ≠ [] ∧ (IsBytes kv.1 ∧ ∀ w ∈ kv.2, IsBytes w) := by
  induction ps generalizing acc with
  | nil => exact ⟨hnd, hprops⟩
  | cons p ps2 ih =>
    rw [List.foldl_cons]
    have hp := hps p (List.mem_cons_self _ _)
    exact ih (insertPair acc p.1 p.2)
      (fun q hq => hps q (List.mem_cons_of_mem _ hq))
      (insertPair_nodup acc p.1 p.2 hnd)
      (insertPair_props acc p.1 p.2 (fun kv h => (hprops kv h).1)
        (fun kv h => (hprops kv h).2) hp.1 hp.2)

theorem groupPairs_inv (ps : List (List Nat × List Nat))
    (hps : ∀ p ∈ ps, IsBytes p.1 ∧ IsBytes p.2) :
    ((groupPairs ps).map Prod.fst).Nodup ∧
    ∀ kv ∈ groupPairs ps, kv.2 ≠ [] ∧ (IsBytes kv.1 ∧ ∀ w ∈ kv.2, IsBytes w) := by
  unfold groupPairs
  exact foldl_insertPair_inv ps [] hps (by simp)
    (fun kv h => absurd h (List.not_mem_nil kv))

theorem unquotePlus_percent_bad (a c : Nat) (l : List Nat)
    (h : ∀ ha hc, hexVal a = some ha → hexVal c = some hc → False) :
    unquotePlus (37 :: a :: c :: l) = 37 :: unquotePlus (a :: c :: l) := by
  rcases h1 : hexVal a with _ | ha
  · simp [unquotePlus, h1]
  · rcases h2 : hexVal c with _ | hc
    · simp [unquotePlus, h1, h2]
    · exact (h ha hc h1 h2).elim

theorem unquotePlus_bytes (l : List Nat) (h : IsBytes l) : IsBytes (unquotePlus l) := by
  induction l using unquotePlus.induct with
  | case1 => exact h
  | case2 rest ih =>
    rw [unquotePlus_cons_plus]
    intro c hc
    rcases List.mem_cons.mp hc with hc1 | hc1
    · omega
    · exact ih (fun b hb => h b (List.mem_cons_of_mem _ hb)) c hc1
  | case3 a c2 rest2 hb hc hva hvc ih =>
    rw [unquotePlus_percent _ _ _ _ _ hvc hva]
    intro c hc3
    rcases List.mem_cons.mp hc3 with hc1 | hc1
    · have h1 := hexVal_lt a _ hvc
      have h2 := hexVal_lt c2 _ hva
      omega
    · exact ih (fun b hb2 => h b (List.mem_cons_of_mem _ (List.mem_cons_of_mem _
        (List.mem_cons_of_mem _ hb2)))) c hc1
  | case4 a c2 rest2 hbad ih =>
    rw [unquotePlus_percent_bad a c2 rest2 (fun ha hc h1 h2 => hbad ha hc h1 h2)]
    intro c hc3
    rcases List.mem_cons.mp hc3 with hc1 | hc1
    · omega
    · exact ih (fun b hb2 => h b (List.mem_cons_of_mem _ hb2)) c hc1
  | case5 b rest h43 h37 ih =>
    have hrest : IsBytes rest := fun b2 hb2 => h b2 (List.mem_cons_of_mem _ hb2)
    have hcons : unquotePlus (b :: rest) = b :: unquotePlus rest := by
      by_cases hb : b = 37
      · subst hb
        rcases rest with _ | ⟨a, _ | ⟨c, r2⟩⟩
        · rfl
        · rfl
        · exact (h37 a c r2 rfl rfl).elim
      · exact unquotePlus_cons_other b rest h43 hb
    rw [hcons]
    intro c hc3
    rcases List.mem_cons.mp hc3 with hc1 | hc1
    · subst hc1
      exact h c (List.mem_cons_self _ _)
    · exact ih hrest c hc1

theorem splitAllOn_subset (sep : Nat) (l : List Nat) :
    ∀ t ∈ splitAllOn sep l, ∀ c ∈ t, c ∈ l := by
  induction l with
  | nil =>
    intro t ht c hc
    rw [show splitAllOn sep [] = [[]] from rfl, List.mem_singleton] at ht
    subst ht
    cases hc
  | cons b rest ih =>
    intro t ht c hc
    conv at ht => rw [show splitAllOn sep (b :: rest) =
      (if b = sep then [] :: splitAllOn sep rest
       else match splitAllOn sep rest with
         | [] => [[b]]
         | g :: gs => (b :: g) :: gs) from rfl]
    by_cases hb : b = sep
    · rw [if_pos hb] at ht
      rcases List.mem_cons.mp ht with h1 | h1
      · subst h1
        cases hc
      · exact List.mem_cons_of_mem _ (ih t h1 c hc)
    · rw [if_neg hb] at ht
      cases hsp : splitAllOn sep rest with
      | nil =>
        rw [hsp] at ht
        rw [List.mem_singleton] at ht
        subst ht
        rw [List.mem_singleton] at hc
        subst hc
        exact List.mem_cons_self _ _
      | cons g gs =>
        rw [hsp] at ht
        rcases List.mem_cons.mp ht with h1 | h1
        · subst h1
          rcases List.mem_cons.mp hc with h2 | h2
          · subst h2
            exact List.mem_cons_self _ _
          · exact List.mem_cons_of_mem _ (ih g (hsp ▸ List.mem_cons_self _ _) c h2)
        · exact List.mem_cons_of_mem _ (ih t (hsp ▸ List.mem_cons_of_mem _ h1) c hc)

theorem parseQsl_bytes (q : List Nat) (h : IsBytes q) :
    ∀ p ∈ parseQsl q, IsBytes p.1 ∧ IsBytes p.2 := by
  intro p hp
  unfold parseQsl at hp
  rw [List.mem_filterMap] at hp
  obtain ⟨field, hfield, hbody⟩ := hp
  have hfb : IsBytes field := fun c hc => h c (splitAllOn_subset ampByte q field hfield c hc)
  by_cases hemp : field = []
  · rw [if_pos hemp] at hbody
    cases hbody
  · rw [if_neg hemp] at hbody
    have hfst : IsBytes (splitOnFirst eqByte field).1 :=
      fun c hc => hfb c (splitOnFirst_fst_subset eqByte field c hc)
    rcases hsnd : (splitOnFirst eqByte field).2 with _ | v
    · simp only [hsnd] at hbody
      cases hbody
      exact ⟨unquotePlus_bytes _ hfst, fun c hc => absurd hc (List.not_mem_nil c)⟩
    · simp only [hsnd] at hbody
      cases hbody
      refine ⟨unquotePlus_bytes _ hfst, unquotePlus_bytes _ ?_⟩
      exact fun c hc => hfb c (splitOnFirst_snd_subset eqByte field v hsnd c hc)

theorem flattenPairs_mem (g : List (List Nat × List (List Nat)))
    (p : List Nat × List Nat) (hp : p ∈ flattenPairs g) :
    ∃ kv ∈ g, p.1 = kv.1 ∧ p.2 ∈ kv.2 := by
  unfold flattenPairs at hp
  rw [List.mem_flatten] at hp
  obtain ⟨l, hl, hpl⟩ := hp
  rw [List.mem_map] at hl
  obtain ⟨kv, hkv, hkvl⟩ := hl
  subst hkvl
  rw [List.mem_map] at hpl
  obtain ⟨v, hv, hvp⟩ := hpl
  subst hvp
  exact ⟨kv, hkv, rfl, hv⟩

theorem joinAmpTokens_mem (ts : List (List Nat)) (c : Nat) (hc : c ∈ joinAmpTokens ts) :
    c = 38 ∨ ∃ t ∈ ts, c ∈ t := by
  cases ts with
  | nil => cases hc
  | cons t ts2 =>
    rw [show joinAmpTokens (t :: ts2) =
      t ++ (ts2.map fun u => ampByte :: u).flatten from rfl, List.mem_append] at hc
    rcases hc with h1 | h1
    · exact Or.inr ⟨t, List.mem_cons_self _ _, h1⟩
    · rw [List.mem_flatten] at h1
      obtain ⟨l, hl, hcl⟩ := h1
      rw [List.mem_map] at hl
      obtain ⟨u, hu, hul⟩ := hl
      subst hul
      rcases List.mem_cons.mp hcl with h2 | h2
      · exact Or.inl h2
      · exact Or.inr ⟨u, List.mem_cons_of_mem _ hu, h2⟩

theorem urlencodeGrouped_mem_ne (g : List (List Nat × List (List Nat))) (c : Nat)
    (hc : c ∈ urlencodeGrouped g) : c ≠ 35 ∧ c ≠ 63 := by
  unfold urlencodeGrouped at hc
  rcases joinAmpTokens_mem _ c hc with h1 | ⟨t, ht, hct⟩
  · omega
  · rw [List.mem_map] at ht
    obtain ⟨kv, _, hkvt⟩ := ht
    subst hkvt
    unfold encTok at hct
    rcases List.mem_append.mp hct with h2 | h2
    · have := quotePlus_mem_ne _ c h2
      omega
    · rcases List.mem_cons.mp h2 with h3 | h3
      · rw [show eqByte = 61 from rfl] at h3
        omega
      · have := quotePlus_mem_ne _ c h3
        omega

theorem sanitize_query_roundtrip (cleaned : List (List Nat × List (List Nat)))
    (hkeys : (cleaned.map Prod.fst).Nodup)
    (hprops : ∀ kv ∈ cleaned, kv.2 ≠ [] ∧ (IsBytes kv.1 ∧ ∀ v ∈ kv.2, IsBytes v))
    (hdrop : ∀ kv ∈ cleaned, kv.1 ∉ droppedKeys) :
    (groupPairs (parseQsl (urlencodeGrouped cleaned))).filter
      (fun kv => decide (kv.1 ∉ droppedKeys)) = cleaned := by
  by_cases hc : cleaned = []
  · subst hc
    rfl
  · have hps_ne : flattenPairs cleaned ≠ [] := by
      rcases cleaned with _ | ⟨⟨k, vs⟩, rest⟩
      · exact absurd rfl hc
      · obtain ⟨v, vs2, rfl⟩ : ∃ v vs2, vs = v :: vs2 := by
          cases vs with
          | nil => exact absurd rfl ((hprops (k, []) (List.mem_cons_self _ _)).1)
          | cons a b => exact ⟨a, b, rfl⟩
        intro hfe
        unfold flattenPairs at hfe
        simp at hfe
    have hbytes : ∀ p ∈ flattenPairs cleaned, IsBytes p.1 ∧ IsBytes p.2 := by
      intro p hp
      obtain ⟨kv, hkv, h1, h2⟩ := flattenPairs_mem cleaned p hp
      have h3 := (hprops kv hkv).2
      exact ⟨by rw [h1]; exact h3.1, h3.2 p.2 h2⟩
    rw [show urlencodeGrouped cleaned =
        joinAmpTokens ((flattenPairs cleaned).map encTok) from rfl,
      parseQsl_encoded (flattenPairs cleaned) hbytes hps_ne,
      groupPairs_flattenPairs cleaned hkeys (fun kv h => (hprops kv h).1)]
    apply List.filter_eq_self.mpr
    intro kv hkv
    rw [decide_eq_true_iff]
    exact hdrop kv hkv

theorem sanitize_eq (url : List Nat) :
    sanitize_youtube_url url =
      (splitOnFirst 63 (splitOnFirst 35 url).1).1 ++
        (if urlencodeGrouped
            ((groupPairs (parseQsl
              ((splitOnFirst 63 (splitOnFirst 35 url).1).2.getD []))).filter
                fun kv => decide (kv.1 ∉ droppedKeys)) = [] then []
         else 63 :: urlencodeGrouped
            ((groupPairs (parseQsl
              ((splitOnFirst 63 (splitOnFirst 35 url).1).2.getD []))).filter
                fun kv => decide (kv.1 ∉ droppedKeys))) ++
        (if (splitOnFirst 35 url).2.getD [] = [] then []
         else 35 :: (splitOnFirst 35 url).2.getD []) := rfl

theorem sanitize_assembled (base frag : List Nat)
    (cleaned : List (List Nat × List (List Nat)))
    (hb35 : (35 : Nat) ∉ base) (hb63 : (63 : Nat) ∉ base)
    (hkeys : (cleaned.map Prod.fst).Nodup)
    (hprops : ∀ kv ∈ cleaned, kv.2 ≠ [] ∧ (IsBytes kv.1 ∧ ∀ v ∈ kv.2, IsBytes v))
    (hdrop : ∀ kv ∈ cleaned, kv.1 ∉ droppedKeys) :
    sanitize_youtube_url (base ++
      (if urlencodeGrouped cleaned = [] then []
        else 63 :: urlencodeGrouped cleaned) ++
      (if frag = [] then [] else 35 :: frag)) =
    base ++
      (if urlencodeGrouped cleaned = [] then []
        else 63 :: urlencodeGrouped cleaned) ++
      (if frag = [] then [] else 35 :: frag) := by
  have hQ35 : (35 : Nat) ∉ urlencodeGrouped cleaned :=
    fun hm => (urlencodeGrouped_mem_ne cleaned 35 hm).1 rfl
  have hQ63 : (63 : Nat) ∉ urlencodeGrouped cleaned :=
    fun hm => (urlencodeGrouped_mem_ne cleaned 63 hm).2 rfl
  have hround := sanitize_query_roundtrip cleaned hkeys hprops hdrop
  by_cases hq : urlencodeGrouped cleaned = [] <;> by_cases hf : frag = []
  · rw [if_pos hq, if_pos hf, List.append_nil, List.append_nil, sanitize_eq,
      splitOnFirst_not_mem 35 base hb35]
    simp only [Option.getD_none]
    rw [splitOnFirst_not_mem 63 base hb63]
    simp only [Option.getD_none]
    rw [show parseQsl [] = [] from rfl]
    simp
    rfl
  · rw [if_pos hq, if_neg hf, List.append_nil, sanitize_eq,
      splitOnFirst_append 35 base frag hb35]
    simp only [Option.getD_some]
    rw [splitOnFirst_not_mem 63 base hb63]
    simp only [Option.getD_none]
    rw [show parseQsl [] = [] from rfl]
    simp [hf]
    rfl
  · rw [if_neg hq, if_pos hf, List.append_nil, sanitize_eq]
    have hpre : (35 : Nat) ∉ base ++ 63 :: urlencodeGrouped cleaned := by
      rw [List.mem_append, List.mem_cons]
      rintro (hm | hm | hm)
      · exact hb35 hm
      · omega
      · exact hQ35 hm
    rw [splitOnFirst_not_mem 35 _ hpre]
    simp only [Option.getD_none]
    rw [splitOnFirst_append 63 base (urlencodeGrouped cleaned) hb63]
    simp only [Option.getD_some]
    rw [hround, if_neg hq]
    simp
  · rw [if_neg hq, if_neg hf, sanitize_eq]
    have hpre : (35 : Nat) ∉ base ++ 63 :: urlencodeGrouped cleaned := by
      rw [List.mem_append, List.mem_cons]
      rintro (hm | hm | hm)
      · exact hb35 hm
      · omega
      · exact hQ35 hm
    rw [splitOnFirst_append 35 _ frag hpre]
    simp only [Option.getD_some]
    rw [splitOnFirst_append 63 base (urlencodeGrouped cleaned) hb63]
    simp only [Option.getD_some]
    rw [hround, if_neg hq, if_neg hf]

theorem sanitize_idem (url : List Nat) (h : IsBytes url) :
    sanitize_youtube_url (sanitize_youtube_url url) = sanitize_youtube_url url := by
  have hbytes_rest : IsBytes (splitOnFirst 35 url).1 :=
    fun c hc => h c (splitOnFirst_fst_subset 35 url c hc)
  have hbytes_q : IsBytes ((splitOnFirst 63 (splitOnFirst 35 url).1).2.getD []) := by
    rcases hq : (splitOnFirst 63 (splitOnFirst 35 url).1).2 with _ | qq
    · intro c hc
      cases hc
    · intro c hc
      exact hbytes_rest c (splitOnFirst_snd_subset 63 _ qq hq c (by simpa using hc))
  have hinv := groupPairs_inv _ (parseQsl_bytes _ hbytes_q)
  rw [sanitize_eq url]
  apply sanitize_assembled
  · intro hm
    exact sep_not_mem_splitOnFirst_fst 35 url
      (splitOnFirst_fst_subset 63 (splitOnFirst 35 url).1 35 hm)
  · exact sep_not_mem_splitOnFirst_fst 63 (splitOnFirst 35 url).1
  · exact hinv.1.sublist (List.Sublist.map _ (List.filter_sublist _))
  · intro kv hkv
    exact hinv.2 kv (List.mem_of_mem_filter hkv)
  · intro kv hkv
    have h2 := (List.mem_filter.mp hkv).2
    rw [decide_eq_true_iff] at h2
    exact h2

/-- C7: address normalization is idempotent — applying
`sanitize_youtube_url` to its own output (on any byte string, in
particular the UTF-8 bytes of any URL) returns that output unchanged;
and normalizing a watch URL with `list` and `index` parameters keeps
only `v`. -/
theorem sanitize_youtube_url_idempotent :
    (∀ url, IsBytes url →
      sanitize_youtube_url (sanitize_youtube_url url) = sanitize_youtube_url url) ∧
    sanitize_youtube_url
        (strBytes "https://www.youtube.com/watch?v=ABC&list=XYZ&index=2") =
      strBytes "https://www.youtube.com/watch?v=ABC" :=
  ⟨sanitize_idem, by decide⟩

/-- Witness for C7: idempotence evaluated on the concrete watch URL. -/
theorem sanitize_youtube_url_idempotent_witness :
    sanitize_youtube_url (sanitize_youtube_url
      (strBytes "https://www.youtube.com/watch?v=ABC&list=XYZ&index=2")) =
    sanitize_youtube_url
      (strBytes "https://www.youtube.com/watch?v=ABC&list=XYZ&index=2") :=
  sanitize_youtube_url_idempotent.1 _ (by decide)
